import Mathlib

/-!
Verification development for the AI bug-fixer repository.

The repository is TypeScript; we shallowly embed the pieces the claims
are about:

* `UnifiedContextEngine` (src/lib/context-engine.ts): token estimation,
  code search, signal extraction, and the budgeted context gathering
  `gatherContextForBug`;
* `AIBugFixerAgent.parseClaudeResponse` and the apply/commit phase of
  `fixBug` (src/lib/ai-agent.ts);
* the webhook handler with `verifyLinearSignature`, `shouldProcessIssue`
  and `extractRepoInfo` (the api/webhook source file).

JavaScript strings are modelled as lists of characters (`Str`); the
file system, git output and process environment are explicit records;
fallible operations return `Except` or `Option`.  JavaScript regular
expressions are embedded as terms of a small `RE` syntax interpreted by
a standard leftmost / greedy backtracking matcher, and `JSON.parse` /
`JSON.stringify` are implemented following the JSON grammar (object
property access keeps first-key order with later duplicates
overwriting, exactly as `JSON.parse` behaves).
-/

/-- JavaScript strings, modelled as lists of unicode characters. -/
abbrev Str := List Char

/-- Embed a Lean string literal as a `Str`. -/
def strOf (s : String) : Str := s.data

/-- JavaScript `String.prototype.toLowerCase` restricted to the ASCII
range (the only range the repository compares in). -/
def jsLowerChar (c : Char) : Char :=
  if 'A' ≤ c ∧ c ≤ 'Z' then Char.ofNat (c.toNat + 32) else c

/-- `toLowerCase` on a whole string. -/
def jsLower (s : Str) : Str := s.map jsLowerChar

/-- Is `pat` a prefix of `s`?  (Boolean, by direct recursion.) -/
def isPrefixB : Str → Str → Bool
  | [], _ => true
  | _ :: _, [] => false
  | p :: ps, c :: cs => p = c && isPrefixB ps cs

/-- JavaScript `s.includes(pat)`: case-sensitive substring test. -/
def strIncludes : Str → Str → Bool
  | [], pat => isPrefixB pat []
  | c :: rest, pat => isPrefixB pat (c :: rest) || strIncludes rest pat

/-- JavaScript `s.endsWith(suffix)`. -/
def strEnds (s suf : Str) : Bool := isPrefixB suf.reverse s.reverse

/-- The character set of the JavaScript `\s` class (also the set removed
by `String.prototype.trim`): ASCII whitespace, line terminators and the
unicode space separators. -/
def jsIsSpace (c : Char) : Bool :=
  (c.toNat == 32) || (c.toNat == 9) || (c.toNat == 10) || (c.toNat == 13) ||
  (c.toNat == 0x0B) || (c.toNat == 0x0C) || (c.toNat == 0xA0) || (c.toNat == 0x1680) ||
  ((0x2000 ≤ c.toNat) && (c.toNat ≤ 0x200A)) ||
  (c.toNat == 0x2028) || (c.toNat == 0x2029) || (c.toNat == 0x202F) ||
  (c.toNat == 0x205F) || (c.toNat == 0x3000) || (c.toNat == 0xFEFF)

/-- JavaScript `String.prototype.trim`. -/
def jsTrim (s : Str) : Str :=
  ((s.dropWhile jsIsSpace).reverse.dropWhile jsIsSpace).reverse

/-- JavaScript `s.split(sep)` for a single-character separator: always
returns at least one (possibly empty) piece. -/
def splitOnChar (sep : Char) : Str → List Str
  | [] => [[]]
  | c :: rest =>
    match splitOnChar sep rest with
    | [] => [[]]
    | h :: t => if c = sep then [] :: h :: t else (c :: h) :: t

/-- JavaScript line terminators (the characters the regex `.` does not
match and the positions multiline `^`/`$` anchor around). -/
def isLineTerm (c : Char) : Bool :=
  (c.toNat == 10) || (c.toNat == 13) || (c.toNat == 0x2028) || (c.toNat == 0x2029)

/-- The substring of `s` from index `a` (inclusive) to `b` (exclusive). -/
def strSub (s : Str) (a b : Nat) : Str := (s.drop a).take (b - a)

/-- `[...new Set(xs)]`: deduplicate keeping first occurrences in order. -/
def jsSetDedup (xs : List Str) : List Str :=
  xs.foldl (fun acc x => if x ∈ acc then acc else acc ++ [x]) []

/-- Decimal digits of a number (for `JSON.stringify` of a line number). -/
def natToStr (n : Nat) : Str := Nat.toDigits 10 n

/-- `estimateTokens` from src/lib/context-engine.ts:
`Math.ceil(text.length / 4)`. -/
def estimateTokens (text : Str) : Nat := (text.length + 3) / 4

/-- The token budget constant of `gatherContextForBug`.  The source
compares against `TOKEN_BUDGET * 0.7/0.8/0.85`; those double-precision
products round to exactly 70000, 80000 and 85000, so the thresholds are
embedded as those integers. -/
def TOKEN_BUDGET : Nat := 100000

/-!  ## A small JavaScript regular-expression engine

The Signal Extractor and repository resolution use five concrete
regular expressions.  We embed them as terms of `RE` and interpret them
with the standard backtracking semantics of JavaScript regexes:
alternatives are tried left to right, `*`/`+`/`?` are greedy, the match
reported is the first one in backtracking order at the leftmost
position that admits any match.  `reMatchAux` enumerates the candidate
continuations in exactly that preference order. -/

inductive RE where
  | eps : RE
  | cls (p : Char → Bool) : RE
  | cat (a b : RE) : RE
  | alt (a b : RE) : RE
  | star (a : RE) : RE
  | opt (a : RE) : RE
  | grp (n : Nat) (a : RE) : RE
  | bol : RE
  | eol : RE

/-- Captured groups: `(index, start, end)` triples, most recent first. -/
abbrev Caps := List (Nat × Nat × Nat)

/-- Look up a capture group by index. -/
def capLookup (cs : Caps) (n : Nat) : Option (Nat × Nat) :=
  match cs.find? (fun t => t.1 = n) with
  | some (_, s, e) => some (s, e)
  | none => none

/-- Multiline `^`: start of input or just after a line terminator. -/
def atBol (inp : Str) (i : Nat) : Bool :=
  i = 0 || (match inp.get? (i - 1) with
            | some c => isLineTerm c
            | none => false)

/-- Multiline `$`: end of input or just before a line terminator. -/
def atEol (inp : Str) (i : Nat) : Bool :=
  match inp.get? i with
  | some c => isLineTerm c
  | none => true

/-- One layer of matching, structurally recursive on the regex.
`deeper` re-enters the whole engine with one unit of star fuel spent;
it is invoked only to continue a `star` after its body consumed input.
Results are `(end-position, captures)` pairs in backtracking preference
order (alternatives left to right, quantifiers greedy). -/
def reMatchInner (deeper : RE → Str → Nat → Caps → List (Nat × Caps)) :
    RE → Str → Nat → Caps → List (Nat × Caps)
  | .eps, _, i, cs => [(i, cs)]
  | .cls p, inp, i, cs =>
    match inp.get? i with
    | some c => if p c then [(i + 1, cs)] else []
    | none => []
  | .cat a b, inp, i, cs =>
    (reMatchInner deeper a inp i cs).flatMap
      (fun jc => reMatchInner deeper b inp jc.1 jc.2)
  | .alt a b, inp, i, cs =>
    reMatchInner deeper a inp i cs ++ reMatchInner deeper b inp i cs
  | .opt a, inp, i, cs => reMatchInner deeper a inp i cs ++ [(i, cs)]
  | .grp n a, inp, i, cs =>
    (reMatchInner deeper a inp i cs).map (fun jc => (jc.1, (n, i, jc.1) :: jc.2))
  | .bol, inp, i, cs => if atBol inp i then [(i, cs)] else []
  | .eol, inp, i, cs => if atEol inp i then [(i, cs)] else []
  | .star a, inp, i, cs =>
    ((reMatchInner deeper a inp i cs).filter (fun jc => i < jc.1)).flatMap
      (fun jc => deeper (.star a) inp jc.1 jc.2) ++ [(i, cs)]

/-- All ways to match `re` in `inp` starting at `i`.  `fuel` bounds the
unrolling of `star`; each iteration of a starred body must consume
input (the bodies used here always do), so `inp.length + 1` fuel is
always sufficient. -/
def reMatchAux : Nat → RE → Str → Nat → Caps → List (Nat × Caps)
  | 0 => reMatchInner (fun _ _ _ _ => [])
  | fuel + 1 => reMatchInner (reMatchAux fuel)

/-- The preferred match of `re` at position `i` of `inp`, if any. -/
def reMatchAt (re : RE) (inp : Str) (i : Nat) : Option (Nat × Caps) :=
  (reMatchAux (inp.length + 1) re inp i []).head?

/-- First match at or after position `i`: scan positions left to right
(`countdown` is `inp.length + 1 - i`, making the recursion structural).
Returns `(start, end, captures)`. -/
def reSearchFrom (re : RE) (inp : Str) : Nat → Nat → Option (Nat × Nat × Caps)
  | 0, _ => none
  | countdown + 1, i =>
    match reMatchAt re inp i with
    | some (e, cs) => some (i, e, cs)
    | none => reSearchFrom re inp countdown (i + 1)

/-- `text.match(re)` for a non-global regex: leftmost match. -/
def reFirst (re : RE) (inp : Str) : Option (Nat × Nat × Caps) :=
  reSearchFrom re inp (inp.length + 1) 0

/-- All matches of a global regex, as JavaScript `matchAll`/`match` with
the `g` flag produce them: repeatedly take the leftmost match and
resume after it (bumping by one on an empty match). -/
def reGlobalAux (re : RE) (inp : Str) : Nat → Nat → List (Nat × Nat × Caps)
  | 0, _ => []
  | countdown + 1, i =>
    match reSearchFrom re inp (inp.length + 1 - i) i with
    | none => []
    | some (s, e, cs) =>
      (s, e, cs) :: reGlobalAux re inp countdown (if s < e then e else e + 1)

/-- All matches of a global regex from the start of the input. -/
def reGlobal (re : RE) (inp : Str) : List (Nat × Nat × Caps) :=
  reGlobalAux re inp (inp.length + 1) 0

/-- Character class `\w`. -/
def isWordChar (c : Char) : Bool :=
  ('a' ≤ c ∧ c ≤ 'z') ∨ ('A' ≤ c ∧ c ≤ 'Z') ∨ ('0' ≤ c ∧ c ≤ '9') ∨ c = '_'

/-- Character class `[\w-]`. -/
def isWordDash (c : Char) : Bool := isWordChar c || c = '-'

/-- Character class `\d`. -/
def isDigitChar (c : Char) : Bool := '0' ≤ c ∧ c ≤ '9'

/-- The regex `.` without the `s` flag: anything but a line terminator. -/
def isDotChar (c : Char) : Bool := ¬ isLineTerm c

/-- A literal character. -/
def reLit (c : Char) : RE := .cls (fun d => d.toNat == c.toNat)

/-- A literal word (concatenation of literal characters). -/
def reWord (w : String) : RE := w.data.foldr (fun c r => .cat (reLit c) r) .eps

/-- `x+` as `x · x*`. -/
def rePlus (a : RE) : RE := .cat a (.star a)

/-!  ## The Signal Extractor's regular expressions
(`extractSignalsFromIssue`, src/lib/context-engine.ts) -/

/-- `/(?:[\w-]+\/)*[\w-]+\.\w+(?::\d+)?/g` — candidate file paths. -/
def fileRE : RE :=
  .cat (.star (.cat (rePlus (.cls isWordDash)) (reLit '/')))
    (.cat (rePlus (.cls isWordDash))
      (.cat (reLit '.')
        (.cat (rePlus (.cls isWordChar))
          (.opt (.cat (reLit ':') (rePlus (.cls isDigitChar)))))))

/-- `/(?:Error|Exception|Failed|TypeError|ReferenceError).*$/gm` —
candidate error-message lines. -/
def errRE : RE :=
  .cat (.alt (reWord ("Error"))
          (.alt (reWord ("Exception"))
            (.alt (reWord ("Failed"))
              (.alt (reWord ("TypeError")) (reWord ("ReferenceError"))))))
    (.cat (.star (.cls isDotChar)) .eol)

/-- `/(?:at|in) (\w+)/g` — candidate function names (group 1). -/
def funcRE : RE :=
  .cat (.alt (reWord ("at")) (reWord ("in")))
    (.cat (reLit ' ') (.grp 1 (rePlus (.cls isWordChar))))

/-- `/^\s*at .+$/gm` — stack-trace lines. -/
def stackRE : RE :=
  .cat .bol
    (.cat (.star (.cls jsIsSpace))
      (.cat (reWord ("at ")) (.cat (rePlus (.cls isDotChar)) .eol)))

/-- `/github\.com\/([^\/]+)\/([^\/\s]+)/` — repository URL extraction
(the webhook handler's `extractRepoInfo`). -/
def githubRE : RE :=
  .cat (reWord ("github.com/"))
    (.cat (.grp 1 (rePlus (.cls (fun c => c ≠ '/'))))
      (.cat (reLit '/')
        (.grp 2 (rePlus (.cls (fun c => ¬ (c = '/' ∨ jsIsSpace c)))))))

/-!  ## Data model -/

/-- `LinearIssue` (src/lib/context-engine.ts). -/
structure LinearIssue where
  id : Str
  title : Str
  description : Str
  priority : Int
  labels : List Str
  url : Str
deriving DecidableEq

/-- `FileContext` (src/lib/context-engine.ts). -/
structure FileContext where
  path : Str
  content : Str
  lineCount : Nat
deriving DecidableEq

/-- A record of `getRecentCommits`.  `git log` output lines are split on
`|`; a field past the end of the split is JavaScript `undefined`,
modelled as `none`. -/
structure CommitRec where
  sha : Option Str
  message : Option Str
  author : Option Str
  date : Option Str
deriving DecidableEq

/-- One entry of `searchCode`'s result. -/
structure SearchResult where
  file : Str
  line : Nat
  content : Str
deriving DecidableEq

/-- `BugContext` (src/lib/context-engine.ts). -/
structure BugContext where
  staticContext : Str
  issueDetails : LinearIssue
  relevantFiles : List FileContext
  recentCommits : List CommitRec
  searchResults : List SearchResult
  estimatedTokens : Nat
deriving DecidableEq

/-- The four signal lists of `extractSignalsFromIssue`. -/
structure Signals where
  files : List Str
  errors : List Str
  functions : List Str
  stackTrace : List Str
deriving DecidableEq

/-- The repository checkout as seen by the engine: the recursive
directory listing (`listFiles`, which throws if a `readdir` fails), the
per-file read results (`fs.readFile`), and the raw output of
`git log -5 --pretty=format:"%H|%s|%an|%ai"` (`error` when the
subprocess fails). -/
structure FS where
  listing : Except Str (List Str)
  read : Str → Except Str Str
  gitLogOut : Except Str Str

/-- `UnifiedContextEngine.readFile`: rethrows the underlying read
error (with a wrapped message; the content is unchanged). -/
def readFile (fs : FS) (p : Str) : Except Str Str := fs.read p

/-- `extractSignalsFromIssue` (src/lib/context-engine.ts): run the four
regexes over `title + "\n" + description`, slice `:line` suffixes off
file matches, and deduplicate all but the stack-trace lines with `Set`
(first occurrence kept, order preserved). -/
def extractSignalsFromIssue (issue : LinearIssue) : Signals :=
  let text := issue.title ++ '\n' :: issue.description
  { files := jsSetDedup ((reGlobal fileRE text).map
      (fun m => (splitOnChar ':' (strSub text m.1 m.2.1)).headD []))
    errors := jsSetDedup ((reGlobal errRE text).map
      (fun m => strSub text m.1 m.2.1))
    functions := jsSetDedup ((reGlobal funcRE text).filterMap
      (fun m => (capLookup m.2.2 1).map (fun p => strSub text p.1 p.2)))
    stackTrace := (reGlobal stackRE text).map
      (fun m => strSub text m.1 m.2.1) }

/-!  ## Code search (`searchCode`, src/lib/context-engine.ts) -/

/-- The extension filter: with a filter list present, a file is skipped
unless some extension is a suffix of its path. -/
def extSkip (exts : Option (List Str)) (f : Str) : Bool :=
  match exts with
  | some es => ! es.any (fun e => strEnds f e)
  | none => false

/-- Per-file matching: every line containing `pattern` as a
case-sensitive substring yields `{file, line: index+1, content:
line.trim()}`. -/
def searchLines (f : Str) (pattern : Str) (content : Str) : List SearchResult :=
  ((splitOnChar '\n' content).enum).filterMap
    (fun p => if strIncludes p.2 pattern then
                some ⟨f, p.1 + 1, jsTrim p.2⟩
              else none)

/-- The loop of `searchCode` over the listed files: skip files failing
the extension filter, skip unreadable files, concatenate line hits in
file order. -/
def searchFiles (fs : FS) (pattern : Str) (exts : Option (List Str)) :
    List Str → List SearchResult
  | [] => []
  | f :: rest =>
    if extSkip exts f then searchFiles fs pattern exts rest
    else
      match readFile fs f with
      | .error _ => searchFiles fs pattern exts rest
      | .ok content => searchLines f pattern content ++ searchFiles fs pattern exts rest

/-- `searchCode`: `listFiles` is not guarded, so a failing directory
walk propagates; per-file read failures are swallowed. -/
def searchCode (fs : FS) (pattern : Str) (exts : Option (List Str)) :
    Except Str (List SearchResult) :=
  match fs.listing with
  | .error e => .error e
  | .ok files => .ok (searchFiles fs pattern exts files)

/-!  ## Recent commits (`getRecentCommits`, src/lib/context-engine.ts) -/

/-- One output line split on `|` into the four commit fields. -/
def parseCommitLine (line : Str) : CommitRec :=
  let parts := splitOnChar '|' line
  ⟨parts.get? 0, parts.get? 1, parts.get? 2, parts.get? 3⟩

/-- `getRecentCommits(undefined, 5)`: parse the git log output,
dropping empty lines (`filter(Boolean)`); any subprocess failure
degrades to the empty list. -/
def getRecentCommits (fs : FS) : List CommitRec :=
  match fs.gitLogOut with
  | .error _ => []
  | .ok out => ((splitOnChar '\n' out).filter (fun l => ! l.isEmpty)).map parseCommitLine

/-!  ## `JSON.stringify` of search results and commit records -/

/-- An opening brace character. -/
def lbraceC : Char := Char.ofNat 123

/-- A closing brace character. -/
def rbraceC : Char := Char.ofNat 125

/-- Lowercase hexadecimal digit. -/
def hexDigit (n : Nat) : Char :=
  if n < 10 then Char.ofNat (48 + n) else Char.ofNat (87 + n)

/-- `JSON.stringify` escaping of one character. -/
def escChar (c : Char) : Str :=
  if c = '"' then ['\\', '"']
  else if c = '\\' then ['\\', '\\']
  else if c.toNat = 8 then ['\\', 'b']
  else if c = '\t' then ['\\', 't']
  else if c = '\n' then ['\\', 'n']
  else if c.toNat = 12 then ['\\', 'f']
  else if c = '\r' then ['\\', 'r']
  else if c.toNat < 32 then
    ['\\', 'u', '0', '0', hexDigit (c.toNat / 16), hexDigit (c.toNat % 16)]
  else [c]

/-- A JSON string literal. -/
def jsonStrLit (s : Str) : Str := '"' :: s.flatMap escChar ++ ['"']

/-- A `"key":value` member. -/
def jsonMember (k : String) (v : Str) : Str := jsonStrLit (strOf k) ++ ':' :: v

/-- A JSON array out of already-serialized elements. -/
def jsonArr (items : List Str) : Str := '[' :: List.intercalate [','] items ++ [']']

/-- `JSON.stringify` of one search result (insertion order of the
object literal: file, line, content). -/
def searchResultJson (r : SearchResult) : Str :=
  lbraceC ::
    (jsonMember ("file") (jsonStrLit r.file) ++ [','] ++
     jsonMember ("line") (natToStr r.line) ++ [','] ++
     jsonMember ("content") (jsonStrLit r.content)) ++ [rbraceC]

/-- `JSON.stringify(context.searchResults)`. -/
def stringifySearchResults (rs : List SearchResult) : Str :=
  jsonArr (rs.map searchResultJson)

/-- `JSON.stringify` of one commit record; `undefined` fields are
omitted entirely, as `JSON.stringify` does. -/
def commitJson (c : CommitRec) : Str :=
  lbraceC ::
    List.intercalate [',']
      (([(("sha" : String), c.sha), (("message" : String), c.message),
         (("author" : String), c.author), (("date" : String), c.date)]).filterMap
        (fun kv => kv.2.map (fun v => jsonMember kv.1 (jsonStrLit v)))) ++ [rbraceC]

/-- `JSON.stringify(context.recentCommits)`. -/
def stringifyCommits (cs : List CommitRec) : Str :=
  jsonArr (cs.map commitJson)

/-!  ## `gatherContextForBug` (src/lib/context-engine.ts)

The body is factored into its four budgeted stages; the thresholds are
the exactly-rounded values of `TOKEN_BUDGET * 0.7 / 0.8 / 0.85`. -/

/-- `TOKEN_BUDGET * 0.7` (exact as a double). -/
def FILE_BUDGET : Nat := 70000

/-- `TOKEN_BUDGET * 0.8` (exact as a double). -/
def SEARCH_BUDGET : Nat := 80000

/-- `TOKEN_BUDGET * 0.85` (exact as a double). -/
def COMMIT_BUDGET : Nat := 85000

/-- The fixed path of the static notes document. -/
def contextMdPath : Str := strOf (".ai/context.md")

/-- The placeholder substituted when the static notes are unreadable. -/
def noContextPlaceholder : Str := strOf ("No project context file found.")

/-- Step 1: load `.ai/context.md`; on success its estimate is added to
the running total, on failure the placeholder is substituted and
nothing is added.  Returns `(staticContext, tokensUsed)`. -/
def staticStep (fs : FS) : Str × Nat :=
  match readFile fs contextMdPath with
  | .ok s => (s, estimateTokens s)
  | .error _ => (noContextPlaceholder, 0)

/-- Step 3: the mentioned-files loop.  At the top of each iteration the
loop breaks outright once the running total has reached 70% of budget;
an unreadable file is skipped; a readable file is appended only when
adding its estimate keeps the total strictly below 70% of budget —
otherwise it is skipped and the loop continues. -/
def addRelevantFiles (fs : FS) : Nat → List Str → List FileContext × Nat
  | t, [] => ([], t)
  | t, p :: rest =>
    if FILE_BUDGET ≤ t then ([], t)
    else
      match readFile fs p with
      | .error _ => addRelevantFiles fs t rest
      | .ok content =>
        let tok := estimateTokens content
        if t + tok < FILE_BUDGET then
          let r := addRelevantFiles fs (t + tok) rest
          (⟨p, content, (splitOnChar '\n' content).length⟩ :: r.1, r.2)
        else
          addRelevantFiles fs t rest

/-- The fixed extension list passed to `searchCode` by step 4. -/
def srcExtensions : List Str :=
  [strOf (".ts"), strOf (".tsx"), strOf (".js"), strOf (".jsx"),
   strOf (".py"), strOf (".go"), strOf (".rs")]

/-- Step 5: fetch the five most recent commits when the running total
is under 85% of budget, adding the estimate of their serialization. -/
def commitsStep (fs : FS) (t : Nat) : List CommitRec × Nat :=
  if t < COMMIT_BUDGET then
    let cs := getRecentCommits fs
    (cs, t + estimateTokens (stringifyCommits cs))
  else ([], t)

/-- `gatherContextForBug`.  Steps: static notes, signal extraction, the
mentioned-files loop, the error search (only when at least one error
string was extracted and the running total is under 80% of budget; the
first 20 hits are kept), recent commits.  The overall operation fails
exactly when the triggered search's directory listing fails. -/
def gatherContextForBug (fs : FS) (issue : LinearIssue) : Except Str BugContext :=
  let sc := staticStep fs
  let signals := extractSignalsFromIssue issue
  let fstep := addRelevantFiles fs sc.2 signals.files
  let searchStep : Except Str (List SearchResult × Nat) :=
    match signals.errors with
    | [] => .ok ([], fstep.2)
    | e0 :: _ =>
      if fstep.2 < SEARCH_BUDGET then
        match searchCode fs e0 (some srcExtensions) with
        | .error e => .error e
        | .ok rs =>
          .ok (rs.take 20, fstep.2 + estimateTokens (stringifySearchResults (rs.take 20)))
      else .ok ([], fstep.2)
  match searchStep with
  | .error e => .error e
  | .ok st =>
    let cstep := commitsStep fs st.2
    .ok { staticContext := sc.1, issueDetails := issue, relevantFiles := fstep.1,
          recentCommits := cstep.1, searchResults := st.1, estimatedTokens := cstep.2 }

/-!  ## JSON values and `JSON.parse`

`parseClaudeResponse` feeds a brace-delimited slice of the model reply
to `JSON.parse`.  We embed JSON values and a strict parser for the JSON
grammar.  Numbers are kept as their literal components (sign, integer
digits, fraction digits, exponent), which is enough to decide the
JavaScript truthiness the validation uses. -/

inductive Json where
  | null : Json
  | bool (b : Bool) : Json
  | num (neg : Bool) (ip : Str) (fp : Str) (eneg : Bool) (ep : Str) : Json
  | str (s : Str) : Json
  | arr (elems : List Json) : Json
  | obj (fields : List (Str × Json)) : Json

/-- Parse errors.  The source surfaces the engine's `SyntaxError`
message; the exact text is engine-specific, so we use fixed stand-ins
(none of which collides with the code's own error strings). -/
inductive JsonErr where
  | unexpectedEnd : JsonErr
  | unexpectedToken : JsonErr
  | fuelOut : JsonErr
deriving DecidableEq

/-- The diagnostic text of a parse error. -/
def jsonErrMsg : JsonErr → Str
  | .unexpectedEnd => strOf ("Unexpected end of JSON input")
  | .unexpectedToken => strOf ("Unexpected token in JSON")
  | .fuelOut => strOf ("Unexpected depth in JSON input")

/-- JSON insignificant whitespace. -/
def skipWsJ (s : Str) : Str :=
  s.dropWhile (fun c => c = ' ' || c = '\t' || c = '\n' || c = '\r')

/-- Property assignment as `JSON.parse` performs it: a duplicate key
overwrites in place, a new key is appended. -/
def objSet (fields : List (Str × Json)) (k : Str) (v : Json) : List (Str × Json) :=
  match fields with
  | [] => [(k, v)]
  | (k', v') :: rest =>
    if k' = k then (k, v) :: rest else (k', v') :: objSet rest k v

/-- Hexadecimal digit value. -/
def hexVal (c : Char) : Option Nat :=
  if '0' ≤ c ∧ c ≤ '9' then some (c.toNat - 48)
  else if 'a' ≤ c ∧ c ≤ 'f' then some (c.toNat - 87)
  else if 'A' ≤ c ∧ c ≤ 'F' then some (c.toNat - 55)
  else none

/-- Body of a JSON string, the opening quote already consumed.
Returns the decoded characters and the remaining input.  (A `\u` code
in the surrogate range is not a unicode scalar; `Char.ofNat` maps it to
the null character — the claims never exercise this corner.) -/
def parseStringRest : Str → Except JsonErr (Str × Str)
  | [] => .error .unexpectedEnd
  | c :: rest =>
    if c = '"' then .ok ([], rest)
    else if c = '\\' then
      match rest with
      | [] => .error .unexpectedEnd
      | e :: rest2 =>
        if e = '"' ∨ e = '\\' ∨ e = '/' then
          match parseStringRest rest2 with
          | .ok (s, r) => .ok (e :: s, r)
          | .error err => .error err
        else if e = 'b' ∨ e = 'f' ∨ e = 'n' ∨ e = 'r' ∨ e = 't' then
          let d : Char :=
            if e = 'b' then Char.ofNat 8
            else if e = 'f' then Char.ofNat 12
            else if e = 'n' then '\n'
            else if e = 'r' then '\r'
            else '\t'
          match parseStringRest rest2 with
          | .ok (s, r) => .ok (d :: s, r)
          | .error err => .error err
        else if e = 'u' then
          match rest2 with
          | h1 :: h2 :: h3 :: h4 :: rest3 =>
            match hexVal h1, hexVal h2, hexVal h3, hexVal h4 with
            | some a, some b, some c', some d =>
              match parseStringRest rest3 with
              | .ok (s, r) =>
                .ok (Char.ofNat (a * 4096 + b * 256 + c' * 16 + d) :: s, r)
              | .error err => .error err
            | _, _, _, _ => .error .unexpectedToken
          | _ => .error .unexpectedEnd
        else .error .unexpectedToken
    else if c.toNat < 32 then .error .unexpectedToken
    else
      match parseStringRest rest with
      | .ok (s, r) => .ok (c :: s, r)
      | .error err => .error err

/-- Longest digit run at the front. -/
def takeDigits (s : Str) : Str × Str :=
  (s.takeWhile isDigitChar, s.dropWhile isDigitChar)

/-- Fraction and exponent parts of a number literal. -/
def parseFracExp (neg : Bool) (ip : Str) (s : Str) : Except JsonErr (Json × Str) :=
  let fracStep : Except JsonErr (Str × Str) :=
    match s with
    | '.' :: r =>
      match takeDigits r with
      | ([], _) => .error .unexpectedToken
      | (ds, r2) => .ok (ds, r2)
    | _ => .ok ([], s)
  match fracStep with
  | .error e => .error e
  | .ok (fp, s2) =>
    match s2 with
    | e :: r =>
      if e = 'e' ∨ e = 'E' then
        let signStep : Bool × Str :=
          match r with
          | '+' :: rr => (false, rr)
          | '-' :: rr => (true, rr)
          | _ => (false, r)
        match takeDigits signStep.2 with
        | ([], _) => .error .unexpectedToken
        | (ds, r3) => .ok (.num neg ip fp signStep.1 ds, r3)
      else .ok (.num neg ip fp false [], s2)
    | [] => .ok (.num neg ip fp false [], [])

/-- A JSON number literal: optional minus, `0` or a nonzero-led digit
run, optional fraction, optional exponent. -/
def parseNumber (s : Str) : Except JsonErr (Json × Str) :=
  let signStep : Bool × Str :=
    match s with
    | '-' :: r => (true, r)
    | _ => (false, s)
  match signStep.2 with
  | [] => .error .unexpectedEnd
  | c :: r =>
    if c = '0' then
      match r with
      | d :: _ =>
        if isDigitChar d then .error .unexpectedToken
        else parseFracExp signStep.1 ['0'] r
      | [] => parseFracExp signStep.1 ['0'] []
    else if isDigitChar c then
      match takeDigits signStep.2 with
      | (ds, r2) => parseFracExp signStep.1 ds r2
    else .error .unexpectedToken

/-- Object members: `"key" : value` pairs separated by commas, closed
by a brace; duplicate keys overwrite (`objSet`).  `pVal` parses one
nested value; `n` bounds the number of members. -/
def parseObjLoop (pVal : Str → Except JsonErr (Json × Str)) :
    Nat → Str → List (Str × Json) → Except JsonErr (Json × Str)
  | 0, _, _ => .error .fuelOut
  | n + 1, s, acc =>
    match s with
    | '"' :: r =>
      match parseStringRest r with
      | .error e => .error e
      | .ok (k, r2) =>
        match skipWsJ r2 with
        | ':' :: r3 =>
          match pVal (skipWsJ r3) with
          | .error e => .error e
          | .ok (v, r4) =>
            match skipWsJ r4 with
            | ',' :: r5 => parseObjLoop pVal n (skipWsJ r5) (objSet acc k v)
            | c5 :: r5 =>
              if c5 = rbraceC then .ok (.obj (objSet acc k v), r5)
              else .error .unexpectedToken
            | [] => .error .unexpectedEnd
        | _ => .error .unexpectedToken
    | _ => .error .unexpectedToken

/-- Array elements separated by commas, closed by a bracket. -/
def parseArrLoop (pVal : Str → Except JsonErr (Json × Str)) :
    Nat → Str → List Json → Except JsonErr (Json × Str)
  | 0, _, _ => .error .fuelOut
  | n + 1, s, acc =>
    match pVal s with
    | .error e => .error e
    | .ok (v, r) =>
      match skipWsJ r with
      | ',' :: r2 => parseArrLoop pVal n (skipWsJ r2) (acc ++ [v])
      | ']' :: r2 => .ok (.arr (acc ++ [v]), r2)
      | _ => .error .unexpectedToken

/-- A JSON value.  `fuel` bounds the nesting depth; every recursive
descent consumes input, so the top level supplies ample fuel. -/
def parseVal : Nat → Str → Except JsonErr (Json × Str)
  | 0, _ => .error .fuelOut
  | fuel + 1, s =>
    match s with
    | [] => .error .unexpectedEnd
    | c :: rest =>
      if c = lbraceC then
        match skipWsJ rest with
        | c2 :: r2 =>
          if c2 = rbraceC then .ok (.obj [], r2)
          else parseObjLoop (parseVal fuel) (fuel + 1) (c2 :: r2) []
        | [] => .error .unexpectedEnd
      else if c = '[' then
        match skipWsJ rest with
        | ']' :: r2 => .ok (.arr [], r2)
        | r2 => parseArrLoop (parseVal fuel) (fuel + 1) r2 []
      else if c = '"' then
        match parseStringRest rest with
        | .ok (str, r) => .ok (.str str, r)
        | .error e => .error e
      else if isPrefixB (strOf ("true")) s then .ok (.bool true, s.drop 4)
      else if isPrefixB (strOf ("false")) s then .ok (.bool false, s.drop 5)
      else if isPrefixB (strOf ("null")) s then .ok (.null, s.drop 4)
      else if c = '-' ∨ isDigitChar c then parseNumber s
      else .error .unexpectedToken

/-- `JSON.parse`: a single value with surrounding whitespace and
nothing after it. -/
def jsonParse (s : Str) : Except JsonErr Json :=
  match parseVal (2 * s.length + 2) (skipWsJ s) with
  | .error e => .error e
  | .ok (v, rest) =>
    if (skipWsJ rest).isEmpty then .ok v else .error .unexpectedToken

/-!  ## `parseClaudeResponse` (src/lib/ai-agent.ts) -/

/-- Is a number literal the value zero (all mantissa digits `0`)? -/
def jsonNumIsZero (ip fp : Str) : Bool :=
  ip.all (fun c => c = '0') && fp.all (fun c => c = '0')

/-- JavaScript truthiness of a possibly-absent parsed value:
`undefined`, `null`, `false`, `0` and `""` are falsy. -/
def jsTruthy : Option Json → Bool
  | none => false
  | some .null => false
  | some (.bool b) => b
  | some (.num _ ip fp _ _) => ! jsonNumIsZero ip fp
  | some (.str s) => ! s.isEmpty
  | some (.arr _) => true
  | some (.obj _) => true

/-- JavaScript property access `v.k`: a field of an object (duplicate
keys were already collapsed by `objSet`), `undefined` otherwise. -/
def Json.getProp : Json → Str → Option Json
  | .obj fields, k => (fields.find? (fun kv => kv.1 == k)).map (fun kv => kv.2)
  | _, _ => none

/-- `Array.isArray`. -/
def isJsonArray : Option Json → Bool
  | some (.arr _) => true
  | _ => false

/-- The element list of an array value. -/
def jsonArrElems : Option Json → List Json
  | some (.arr l) => l
  | _ => []

/-- Index of the first character satisfying `p`. -/
def firstIdx (p : Char → Bool) : Str → Option Nat
  | [] => none
  | c :: r => if p c then some 0 else (firstIdx p r).map (fun i => i + 1)

/-- Index of the last character satisfying `p`. -/
def lastIdx (p : Char → Bool) (s : Str) : Option Nat :=
  (firstIdx p s.reverse).map (fun i => s.length - 1 - i)

/-- `text.match(/\{[\s\S]*\}/)`: greedy, so the match (when the text
has an opening brace with a closing brace somewhere after it) runs from
the first opening brace to the last closing brace. -/
def jsonSliceMatch (text : Str) : Option Str :=
  match firstIdx (fun c => c = lbraceC) text, lastIdx (fun c => c = rbraceC) text with
  | some i, some j => if i < j then some (strSub text i (j + 1)) else none
  | _, _ => none

/-- The result of `parseClaudeResponse`.  The TypeScript type annotates
`description`/`reasoning` as strings and `changes` as path/content
records, but the parser performs no per-entry conversion, so at runtime
they are whatever JSON values were parsed; we model them as `Json`. -/
structure ParsedFix where
  success : Bool
  changes : List Json
  description : Json
  reasoning : Json
  error : Option Str

/-- The `catch` branch of `parseClaudeResponse`: failure with the first
500 characters of the raw reply as diagnostic reasoning. -/
def parseFailureResult (text : Str) (msg : Str) : ParsedFix :=
  { success := false, changes := [],
    description := .str (strOf ("Failed to parse AI response")),
    reasoning := .str (text.take 500),
    error := some msg }

/-- The error string of the explicit could-not-fix outcome. -/
def couldNotFixMsg : Str := strOf ("AI could not generate a confident fix")

/-- The error thrown when the reply has no brace-delimited slice. -/
def noJsonMsg : Str := strOf ("No JSON found in response")

/-- The error thrown when the parsed object fails validation. -/
def invalidStructureMsg : Str := strOf ("Invalid response structure")

/-- `parseClaudeResponse`: extract the brace-delimited slice, parse it,
validate (`reasoning` and `description` truthy, `changes` an array),
treat an empty `changes` as an explicit could-not-fix signal, and
otherwise succeed with the raw entries. -/
def parseClaudeResponse (text : Str) : ParsedFix :=
  match jsonSliceMatch text with
  | none => parseFailureResult text noJsonMsg
  | some slice =>
    match jsonParse slice with
    | .error e => parseFailureResult text (jsonErrMsg e)
    | .ok parsed =>
      let reasoning := parsed.getProp (strOf ("reasoning"))
      let description := parsed.getProp (strOf ("description"))
      let changes := parsed.getProp (strOf ("changes"))
      if ! jsTruthy reasoning || ! jsTruthy description || ! isJsonArray changes then
        parseFailureResult text invalidStructureMsg
      else if (jsonArrElems changes).isEmpty then
        { success := false, changes := [],
          description := description.getD .null,
          reasoning := reasoning.getD .null,
          error := some couldNotFixMsg }
      else
        { success := true, changes := jsonArrElems changes,
          description := description.getD .null,
          reasoning := reasoning.getD .null,
          error := none }

/-!  ## The Change Applier (steps 4–5 of `fixBug`, src/lib/ai-agent.ts,
and `UnifiedContextEngine.commit`, src/lib/context-engine.ts) -/

/-- One entry of a successful fix's `changes` array. -/
structure Change where
  path : Str
  content : Str
deriving DecidableEq

/-- The checkout's files, by path.  `writeFile` creates parent
directories as needed, so directories are implicit in the map. -/
def FSMap := Str → Option Str

/-- `UnifiedContextEngine.writeFile`: whole-file replacement of the
contents at a path. -/
def writeFileMap (m : FSMap) (p : Str) (content : Str) : FSMap :=
  fun q => if q = p then some content else m q

/-- Step 4 of `fixBug`: write every change's full content at its path,
in order. -/
def applyChanges (m : FSMap) (changes : List Change) : FSMap :=
  changes.foldl (fun acc ch => writeFileMap acc ch.path ch.content) m

/-- The git side effects of `UnifiedContextEngine.commit`. -/
inductive GitCmd where
  | add (p : Str) : GitCmd
  | commitCmd (message : Str) : GitCmd
deriving DecidableEq

/-- `commit(message, files)`: stage each file in order, then create one
commit. -/
def commitGit (message : Str) (files : List Str) : List GitCmd :=
  files.map GitCmd.add ++ [GitCmd.commitCmd message]

/-- The commit message built by step 5 of `fixBug` from the issue and
the model's reasoning. -/
def commitMessage (issue : LinearIssue) (reasoning : Str) : Str :=
  strOf ("Fix: ") ++ issue.title ++ strOf ("\n\n") ++ reasoning ++
    strOf ("\n\nLinear Issue: ") ++ issue.url

/-- Steps 4–5 of `fixBug` on a successful fix: apply every change, then
stage exactly the changed paths and commit once.  Returns the new
checkout contents and the git command trace. -/
def applyAndCommit (m : FSMap) (issue : LinearIssue) (reasoning : Str)
    (changes : List Change) : FSMap × List GitCmd :=
  (applyChanges m changes,
   commitGit (commitMessage issue reasoning) (changes.map (fun c => c.path)))

/-- The staged path of a `git add`. -/
def gitAddPath : GitCmd → Option Str
  | .add p => some p
  | .commitCmd _ => none

/-- Is a git command a commit? -/
def isCommitCmd : GitCmd → Bool
  | .commitCmd _ => true
  | .add _ => false

/-!  ## The webhook entry point (the api/webhook source file) -/

/-- A Linear label. -/
structure LinearLabel where
  id : Str
  name : Str
deriving DecidableEq

/-- A Linear team reference. -/
structure LinearTeam where
  id : Str
  name : Str
deriving DecidableEq

/-- The `data` object of a webhook payload. -/
structure PayloadData where
  id : Str
  title : Str
  description : Option Str
  priority : Option Int
  url : Str
  labels : Option (List LinearLabel)
  team : Option LinearTeam
deriving DecidableEq

/-- A parsed webhook payload. -/
structure LinearPayload where
  action : Str
  type : Str
  data : PayloadData
deriving DecidableEq

/-- The process environment variables the handler reads. -/
structure Env where
  linearWebhookSecret : Option Str
  repoMapping : Option Str
  githubRepository : Option Str
deriving DecidableEq

/-- JavaScript truthiness of an optional string (absent or empty is
falsy). -/
def optStrTruthy : Option Str → Bool
  | none => false
  | some s => ! s.isEmpty

/-- `parseLinearWebhook` (src/lib/linear-types.ts): throws on a missing
body or falsy `action`/`type`/`data` (`data`, an object, is truthy
whenever present, so only the strings can fail here). -/
def parseLinearWebhook (body : Option LinearPayload) : Except Str LinearPayload :=
  match body with
  | none => .error (strOf ("Invalid Linear webhook payload"))
  | some p =>
    if p.action.isEmpty ∨ p.type.isEmpty then
      .error (strOf ("Invalid Linear webhook payload"))
    else .ok p

/-- `verifyLinearSignature`: with no secret configured it allows the
request; with a secret configured the HMAC comparison is left
unimplemented (`TODO`) and it also returns `true` for every body and
signature. -/
def verifyLinearSignature (env : Env) (_body : Option LinearPayload)
    (_signature : Option Str) : Bool :=
  if ! optStrTruthy env.linearWebhookSecret then
    true
  else
    true

/-- `shouldProcessIssue`: only `create`/`update` actions carrying a
label whose lower-cased name is `ai-fix`. -/
def shouldProcessIssue (p : LinearPayload) : Bool :=
  if p.action ≠ strOf ("update") ∧ p.action ≠ strOf ("create") then
    false
  else
    (p.data.labels.getD []).any (fun l => jsLower l.name == strOf ("ai-fix"))

/-- The repository reference `extractRepoInfo` resolves.  `repo` is
`none` when the mapping or environment value has no `/` (JavaScript
destructuring yields `undefined`). -/
structure RepoInfo where
  owner : Str
  repo : Option Str
deriving DecidableEq

/-- `.replace(/\.git$/, '')`. -/
def stripDotGit (s : Str) : Str :=
  if strEnds s (strOf (".git")) then s.take (s.length - 4) else s

/-- Option 1 of `extractRepoInfo`: the first `github.com/owner/repo`
URL in the description, as its two capture groups. -/
def githubUrlExtract (desc : Str) : Option (Str × Str) :=
  match reFirst githubRE desc with
  | none => none
  | some (_, _, caps) =>
    match capLookup caps 1, capLookup caps 2 with
    | some (s1, e1), some (s2, e2) =>
      some (strSub desc s1 e1, strSub desc s2 e2)
    | _, _ => none

/-- The team key: `team?.name || team?.id || ''`. -/
def teamKeyOf (team : Option LinearTeam) : Str :=
  match team with
  | none => []
  | some t => if ! t.name.isEmpty then t.name else t.id

/-- Option 2 of `extractRepoInfo`: scan the `REPO_MAPPING` entries in
order; an entry whose (trimmed, lower-cased) team part equals the
lower-cased team key resolves to its `owner/repo` part.  An entry with
no `=` whose whole text matches throws a `TypeError` (`repo` is
`undefined`), which the handler's catch turns into a 500. -/
def repoFromMapping (teamKey : Str) : List Str → Except Str (Option RepoInfo)
  | [] => .ok none
  | mapping :: rest =>
    let parts := splitOnChar '=' mapping
    let team := parts.headD []
    if jsLower (jsTrim team) = jsLower teamKey then
      match parts.get? 1 with
      | none => .error (strOf ("TypeError: repo is undefined"))
      | some repo =>
        let rparts := splitOnChar '/' (jsTrim repo)
        .ok (some ⟨rparts.headD [], rparts.get? 1⟩)
    else repoFromMapping teamKey rest

/-- `extractRepoInfo`: URL in the description first, then the team
mapping, then the `GITHUB_REPOSITORY` default, else `null`. -/
def extractRepoInfo (env : Env) (payload : LinearPayload) :
    Except Str (Option RepoInfo) :=
  let description := payload.data.description.getD []
  match githubUrlExtract description with
  | some (owner, repo) => .ok (some ⟨owner, some (stripDotGit repo)⟩)
  | none =>
    let teamKey := teamKeyOf payload.data.team
    let mappingStep : Except Str (Option RepoInfo) :=
      if optStrTruthy env.repoMapping ∧ ! teamKey.isEmpty then
        repoFromMapping teamKey (splitOnChar ',' (env.repoMapping.getD []))
      else .ok none
    match mappingStep with
    | .error e => .error e
    | .ok (some info) => .ok (some info)
    | .ok none =>
      match env.githubRepository with
      | some repoEnv =>
        if ! repoEnv.isEmpty then
          let parts := splitOnChar '/' repoEnv
          .ok (some ⟨parts.headD [], parts.get? 1⟩)
        else .ok none
      | none => .ok none

/-- A webhook HTTP request, as far as the handler inspects it. -/
structure WebhookReq where
  method : Str
  linearSignature : Option Str
  body : Option LinearPayload

/-- The handler's observable outcome: the HTTP status it responds with
and whether the fix pipeline (clone + agent + Linear comment) ran. -/
structure HandlerOut where
  status : Nat
  pipelineRan : Bool
deriving DecidableEq

/-- The webhook handler's control flow.  The pipeline (repository
clone, `fixBug`, Linear comments) is abstracted as a function returning
success, handled failure, or a thrown error; both handled outcomes
respond 200 and anything thrown in the `try` block responds 500. -/
def handler (env : Env) (pipeline : RepoInfo → Except Str Bool)
    (req : WebhookReq) : HandlerOut :=
  if req.method ≠ strOf ("POST") then ⟨405, false⟩
  else if ! verifyLinearSignature env req.body req.linearSignature then ⟨401, false⟩
  else
    match parseLinearWebhook req.body with
    | .error _ => ⟨500, false⟩
    | .ok payload =>
      if ! shouldProcessIssue payload then ⟨200, false⟩
      else
        match extractRepoInfo env payload with
        | .error _ => ⟨500, false⟩
        | .ok none => ⟨400, false⟩
        | .ok (some info) =>
          match pipeline info with
          | .error _ => ⟨500, true⟩
          | .ok _ => ⟨200, true⟩

/-!  ## Concrete instances

Checkouts, issues, payloads and replies used to instantiate the
theorems below. -/

/-- An issue with empty title and description (no signals extracted). -/
def issueEmpty : LinearIssue := ⟨[], [], [], 0, [], []⟩

/-- An issue whose title is an error line, so one error string is
extracted. -/
def issueErr : LinearIssue := ⟨[], strOf ("Error"), [], 0, [], []⟩

/-- Static notes of 400004 characters: 100001 estimated tokens, above
the whole budget on its own. -/
def bigStatic : Str := List.replicate 400004 'a'

/-- A checkout whose every read returns the oversized static notes. -/
def fsBigStatic : FS :=
  { listing := .ok [], read := fun _ => .ok bigStatic, gitLogOut := .error [] }

/-- The bundle `gatherContextForBug` produces for `fsBigStatic` and
`issueEmpty`. -/
def bigBundle : BugContext := ⟨bigStatic, issueEmpty, [], [], [], 100001⟩

/-- A checkout with no readable files and empty git log output. -/
def fsTiny : FS :=
  { listing := .ok [], read := fun _ => .error [], gitLogOut := .ok [] }

/-- A checkout with no readable files and a failing git log. -/
def fsNoGit : FS :=
  { listing := .ok [], read := fun _ => .error [], gitLogOut := .error [] }

/-- The bundle gathered from `fsTiny` (and `fsNoGit`) for `issueEmpty`:
placeholder notes, nothing else, one token for the serialized empty
commit list. -/
def tinyBundle : BugContext := ⟨noContextPlaceholder, issueEmpty, [], [], [], 1⟩

/-- A file of 280004 characters: estimated 70001 tokens, just over the
70% file share. -/
def bigFileContent : Str := List.replicate 280004 'x'

/-- A checkout with the oversized `a.txt` and a two-byte `b.txt`. -/
def fsTwoFiles : FS :=
  { listing := .ok []
    read := fun p =>
      if p = strOf ("a.txt") then .ok bigFileContent
      else if p = strOf ("b.txt") then .ok (strOf ("hi"))
      else .error []
    gitLogOut := .error [] }

/-- A checkout whose directory walk fails. -/
def fsNoListing : FS :=
  { listing := .error (strOf ("ENOENT: readdir failed"))
    read := fun _ => .error []
    gitLogOut := .error [] }

/-- A checkout with one matching source file for the error search. -/
def c7fs : FS :=
  { listing := .ok [strOf ("a.ts")]
    read := fun p =>
      if p = strOf ("a.ts") then .ok (strOf ("x Error y")) else .error []
    gitLogOut := .error [] }

/-- The bundle gathered from `c7fs` for `issueErr`: one search hit, 12
tokens for its serialization plus 1 for the empty commit list. -/
def c7bundle : BugContext :=
  ⟨noContextPlaceholder, issueErr, [], [],
   [⟨strOf ("a.ts"), 1, strOf ("x Error y")⟩], 13⟩

/-- An environment with all three repository sources configured. -/
def envAllThree : Env :=
  ⟨some (strOf ("s3cret")), some (strOf ("NAV=o2/m2")), some (strOf ("o3/m3"))⟩

/-- An environment with nothing configured. -/
def envNone : Env := ⟨none, none, none⟩

/-- An environment with only the shared webhook secret and the default
repository configured. -/
def envSecretOnly : Env := ⟨some (strOf ("s3cret")), none, some (strOf ("o/r"))⟩

/-- The `NAV` team. -/
def teamNav : LinearTeam := ⟨strOf ("t1"), strOf ("NAV")⟩

/-- A labeled payload whose description holds a repository URL and
whose team matches the mapping. -/
def payloadUrl : LinearPayload :=
  ⟨strOf ("update"), strOf ("Issue"),
   ⟨strOf ("ISS-1"), strOf ("T"), some (strOf ("github.com/a/b.git")), some 1,
    strOf ("u"), some [⟨strOf ("l1"), strOf ("ai-fix")⟩], some teamNav⟩⟩

/-- A labeled payload with no description, no team. -/
def payloadNoRepo : LinearPayload :=
  ⟨strOf ("update"), strOf ("Issue"),
   ⟨strOf ("ISS-2"), strOf ("T"), none, none,
    strOf ("u"), some [⟨strOf ("l1"), strOf ("ai-fix")⟩], none⟩⟩

/-- A POST request carrying a payload and no signature header. -/
def mkReq (p : LinearPayload) : WebhookReq := ⟨strOf ("POST"), none, some p⟩

/-- A pipeline that succeeds (its behaviour is irrelevant to the
filtering claims). -/
def pipelineOk : RepoInfo → Except Str Bool := fun _ => .ok true

/-- A model reply whose JSON validates with an empty change list. -/
def replyEmptyChanges : Str :=
  strOf ("\x7b\"reasoning\":\"r\",\"description\":\"d\",\"changes\":[]\x7d")

/-- The object `replyEmptyChanges` parses to. -/
def parsedEmptyChanges : Json :=
  .obj [(strOf ("reasoning"), .str (strOf ("r"))),
        (strOf ("description"), .str (strOf ("d"))),
        (strOf ("changes"), .arr [])]

/-- A model reply with no brace-delimited slice at all. -/
def replyNoJson : Str := strOf ("no json at all")

/-- A reply whose slice parses but fails structural validation. -/
def replyBadStructure : Str := strOf ("\x7b\"a\":1\x7d")

/-- The object `replyBadStructure` parses to. -/
def parsedBadStructure : Json :=
  .obj [(strOf ("a"), .num false ['1'] [] false [])]

/-- A reply whose slice is not valid JSON. -/
def replyBadJson : Str := strOf ("\x7b broken \x7d")

/-- A reply whose `changes` entries are not path/content records. -/
def replyJunkChanges : Str :=
  strOf ("\x7b\"reasoning\":\"r\",\"description\":\"d\",\"changes\":[42,\x7b\"np\":1\x7d]\x7d")

/-- The object `replyJunkChanges` parses to. -/
def parsedJunkChanges : Json :=
  .obj [(strOf ("reasoning"), .str (strOf ("r"))),
        (strOf ("description"), .str (strOf ("d"))),
        (strOf ("changes"),
         .arr [.num false ['4', '2'] [] false [],
               .obj [(strOf ("np"), .num false ['1'] [] false [])]])]

/-- The junk change entries. -/
def junkChangesList : List Json :=
  [.num false ['4', '2'] [] false [],
   .obj [(strOf ("np"), .num false ['1'] [] false [])]]

/-!  ## Helper lemmas -/

/-- A nonempty list has a last element. -/
theorem getLast?_cons_isSome {α : Type} (a : α) :
    ∀ (l : List α), ∃ x, (a :: l).getLast? = some x := by
  intro l
  induction l generalizing a with
  | nil => exact ⟨a, rfl⟩
  | cons b m ih =>
    obtain ⟨x, hx⟩ := ih b
    exact ⟨x, by rw [List.getLast?_cons_cons, hx]⟩

/-- Writing a change list leaves a path at the content of its last
matching change, and untouched paths at their old value. -/
theorem applyChanges_lookup : ∀ (changes : List Change) (m : FSMap) (p : Str),
    applyChanges m changes p =
      (match (changes.filter (fun c => c.path = p)).getLast? with
       | some c => some c.content
       | none => m p) := by
  intro changes
  induction changes with
  | nil => intro m p; rfl
  | cons ch rest ih =>
    intro m p
    show applyChanges (writeFileMap m ch.path ch.content) rest p = _
    rw [ih]
    by_cases hp : ch.path = p
    · rw [List.filter_cons, if_pos (by simp [hp])]
      cases hrest : (rest.filter (fun c => decide (c.path = p))) with
      | nil =>
        show writeFileMap m ch.path ch.content p = some ch.content
        unfold writeFileMap
        rw [if_pos hp.symm]
      | cons a l =>
        rw [List.getLast?_cons_cons]
        obtain ⟨x, hx⟩ := getLast?_cons_isSome a l
        rw [hx]
    · rw [List.filter_cons, if_neg (by simp [hp])]
      cases hrest : (rest.filter (fun c => decide (c.path = p))).getLast? with
      | none =>
        show writeFileMap m ch.path ch.content p = _
        unfold writeFileMap
        rw [if_neg (fun h => hp h.symm)]
      | some c => rfl

/-- The commit trace stages exactly the given paths. -/
theorem commitGit_adds (msg : Str) (paths : List Str) :
    (commitGit msg paths).filterMap gitAddPath = paths := by
  induction paths with
  | nil => rfl
  | cons p rest ih =>
    simp [commitGit, List.filterMap_cons, gitAddPath] at ih ⊢
    exact ih

/-- The commit trace contains exactly one commit command. -/
theorem commitGit_one (msg : Str) (paths : List Str) :
    ((commitGit msg paths).filter isCommitCmd).length = 1 := by
  induction paths with
  | nil => rfl
  | cons p rest ih =>
    simp [commitGit, List.filter_cons, isCommitCmd] at ih ⊢

/-- The file loop stops outright at or above the 70% share. -/
theorem addFiles_stop (fs : FS) (t : Nat) (ps : List Str) (h : FILE_BUDGET ≤ t) :
    addRelevantFiles fs t ps = ([], t) := by
  cases ps with
  | nil => rfl
  | cons p rest => simp [addRelevantFiles, h]

/-- A readable file whose addition would reach the 70% share is
skipped, and the loop continues with the remaining files. -/
theorem addFiles_skip (fs : FS) (t : Nat) (p : Str) (rest : List Str) (content : Str)
    (hr : readFile fs p = .ok content) (h1 : t < FILE_BUDGET)
    (h2 : FILE_BUDGET ≤ t + estimateTokens content) :
    addRelevantFiles fs t (p :: rest) = addRelevantFiles fs t rest := by
  simp [addRelevantFiles, Nat.not_le.mpr h1, hr, Nat.not_lt.mpr h2]

/-- The included files form a subsequence of the extracted paths (order
preserved, nothing reordered or duplicated). -/
theorem addFiles_sublist (fs : FS) : ∀ (ps : List Str) (t : Nat),
    List.Sublist (((addRelevantFiles fs t ps).1).map (fun f => f.path)) ps := by
  intro ps
  induction ps with
  | nil => intro t; simp [addRelevantFiles]
  | cons p rest ih =>
    intro t
    by_cases hb : FILE_BUDGET ≤ t
    · simp [addRelevantFiles, hb, List.nil_sublist]
    · cases hr : readFile fs p with
      | error e =>
        simp only [addRelevantFiles, if_neg hb, hr]
        exact List.Sublist.cons p (ih t)
      | ok content =>
        by_cases h2 : t + estimateTokens content < FILE_BUDGET
        · simp only [addRelevantFiles, if_neg hb, hr, if_pos h2]
          exact List.Sublist.cons₂ p (ih (t + estimateTokens content))
        · simp only [addRelevantFiles, if_neg hb, hr, if_neg h2]
          exact List.Sublist.cons p (ih t)

/-- The running total after the file loop is bounded by its starting
value or by one token under the 70% share. -/
theorem addFiles_le_max (fs : FS) : ∀ (ps : List Str) (t : Nat),
    (addRelevantFiles fs t ps).2 ≤ max t (FILE_BUDGET - 1) := by
  intro ps
  induction ps with
  | nil => intro t; simp [addRelevantFiles]
  | cons p rest ih =>
    intro t
    by_cases hb : FILE_BUDGET ≤ t
    · simp [addRelevantFiles, hb]
    · cases hr : readFile fs p with
      | error e =>
        simp only [addRelevantFiles, if_neg hb, hr]
        exact ih t
      | ok content =>
        by_cases h2 : t + estimateTokens content < FILE_BUDGET
        · simp only [addRelevantFiles, if_neg hb, hr, if_pos h2]
          refine le_trans (ih _) ?_
          have h3 : t + estimateTokens content ≤ FILE_BUDGET - 1 := by
            unfold FILE_BUDGET at h2 ⊢
            omega
          omega
        · simp only [addRelevantFiles, if_neg hb, hr, if_neg h2]
          exact ih t

/-- The commit step adds exactly the estimate of the serialization of
the commits it returns. -/
theorem commitsStep_bound (fs : FS) (t : Nat) :
    (commitsStep fs t).2 ≤
      t + estimateTokens (stringifyCommits (commitsStep fs t).1) := by
  unfold commitsStep
  by_cases h : t < COMMIT_BUDGET
  · simp [h]
  · simp [h]

/-- The oversized file's length. -/
theorem bigFileLen : bigFileContent.length = 280004 := by
  rw [bigFileContent, List.length_replicate]

/-- The oversized file's token estimate. -/
theorem bigFileTok : estimateTokens bigFileContent = 70001 := by
  rw [estimateTokens, bigFileLen]

/-- The oversized static notes' token estimate. -/
theorem bigStaticTok : estimateTokens bigStatic = 100001 := by
  rw [estimateTokens, bigStatic, List.length_replicate]

/-- Loading the oversized static notes adds 100001 tokens. -/
theorem staticStepBig : staticStep fsBigStatic = (bigStatic, 100001) := by
  have h : readFile fsBigStatic contextMdPath = .ok bigStatic := rfl
  rw [staticStep, h]
  show (bigStatic, estimateTokens bigStatic) = _
  rw [bigStaticTok]

/-- The empty issue yields no signals. -/
theorem sigEmpty : extractSignalsFromIssue issueEmpty = ⟨[], [], [], []⟩ := rfl

/-!  ## Claim theorems -/

/-- C8.  For a successful fix's change list, the Change Applier leaves
every path at the content of its last matching change and every other
path untouched (whole-file replacement, frame preserved), stages
exactly the changed paths, and issues exactly one commit command. -/
theorem c8ApplyCommitExact :
    ∀ (m : FSMap) (issue : LinearIssue) (reasoning : Str) (changes : List Change),
      (∀ p, (applyAndCommit m issue reasoning changes).1 p =
        (match (changes.filter (fun c => c.path = p)).getLast? with
         | some c => some c.content
         | none => m p))
      ∧ (applyAndCommit m issue reasoning changes).2.filterMap gitAddPath =
          changes.map (fun c => c.path)
      ∧ (((applyAndCommit m issue reasoning changes).2.filter isCommitCmd).length = 1) := by
  intro m issue reasoning changes
  exact ⟨fun p => applyChanges_lookup changes m p, commitGit_adds _ _, commitGit_one _ _⟩

/-- C2, counterexample.  With the budget share at 70000 tokens, the
first extracted file `a.txt` estimates to 70001 tokens, so adding it
would cross the threshold — yet the later file `b.txt` is still added:
inclusion does not stop at the first file that would cross. -/
theorem c2CounterexampleLaterFileAdded :
    FILE_BUDGET < 0 + estimateTokens bigFileContent ∧
    ((addRelevantFiles fsTwoFiles 0 [strOf ("a.txt"), strOf ("b.txt")]).1).map
        (fun f => f.path) = [strOf ("b.txt")] := by
  constructor
  · rw [bigFileTok]; norm_num [FILE_BUDGET]
  · rw [addFiles_skip fsTwoFiles 0 (strOf ("a.txt")) [strOf ("b.txt")] bigFileContent rfl
      (by norm_num [FILE_BUDGET]) (by rw [bigFileTok]; norm_num [FILE_BUDGET])]
    rfl

/-- C2, amended.  Files are appended in extraction order (the included
paths form a subsequence of the extracted sequence); a readable file
whose addition would reach or cross the 70% share is skipped while
iteration continues with the remaining files; and iteration stops
outright exactly when the running total has already reached the 70%
share. -/
theorem c2AmendedFileLoop :
    (∀ (fs : FS) (t : Nat) (ps : List Str),
       List.Sublist (((addRelevantFiles fs t ps).1).map (fun f => f.path)) ps)
    ∧ (∀ (fs : FS) (t : Nat) (p : Str) (rest : List Str) (content : Str),
       readFile fs p = .ok content → t < FILE_BUDGET →
       FILE_BUDGET ≤ t + estimateTokens content →
       addRelevantFiles fs t (p :: rest) = addRelevantFiles fs t rest)
    ∧ (∀ (fs : FS) (t : Nat) (ps : List Str), FILE_BUDGET ≤ t →
       addRelevantFiles fs t ps = ([], t)) :=
  ⟨fun fs t ps => addFiles_sublist fs ps t, addFiles_skip, addFiles_stop⟩

/-- C2, witness for the amended theorem at the two-file checkout. -/
theorem c2AmendedFileLoopWitness :
    (readFile fsTwoFiles (strOf ("a.txt")) = .ok bigFileContent ∧
     0 < FILE_BUDGET ∧ FILE_BUDGET ≤ 0 + estimateTokens bigFileContent) ∧
    List.Sublist (((addRelevantFiles fsTwoFiles 0 [strOf ("a.txt"), strOf ("b.txt")]).1).map
      (fun f => f.path)) [strOf ("a.txt"), strOf ("b.txt")] ∧
    addRelevantFiles fsTwoFiles 0 [strOf ("a.txt"), strOf ("b.txt")] =
      addRelevantFiles fsTwoFiles 0 [strOf ("b.txt")] ∧
    addRelevantFiles fsTwoFiles 70000 [strOf ("a.txt")] = ([], 70000) :=
  ⟨⟨rfl, by norm_num [FILE_BUDGET], by rw [bigFileTok]; norm_num [FILE_BUDGET]⟩,
   c2AmendedFileLoop.1 fsTwoFiles 0 _,
   c2AmendedFileLoop.2.1 fsTwoFiles 0 _ _ bigFileContent rfl
     (by norm_num [FILE_BUDGET]) (by rw [bigFileTok]; norm_num [FILE_BUDGET]),
   c2AmendedFileLoop.2.2 fsTwoFiles 70000 _ (by norm_num [FILE_BUDGET])⟩

/-- C1, counterexample.  When the static notes alone estimate to
100001 tokens, the returned bundle's estimate exceeds the 100000-token
budget: nothing caps the static-notes contribution. -/
theorem c1CounterexampleBudgetExceeded :
    gatherContextForBug fsBigStatic issueEmpty = .ok bigBundle ∧
    TOKEN_BUDGET < bigBundle.estimatedTokens := by
  constructor
  · simp only [gatherContextForBug, staticStepBig, sigEmpty, addRelevantFiles, commitsStep]
    norm_num [COMMIT_BUDGET, bigBundle]
  · show (100000 : Nat) < (100001 : Nat)
    norm_num

/-- C1, amended.  The bundle's estimate is not bounded by the fixed
100000-token budget (see the counterexample); what holds is the
decomposition the loop actually enforces: the estimate never exceeds
the larger of the static-notes contribution and one token under the
70% file share, plus the serialized search hits kept in the bundle,
plus the serialized commit records kept in the bundle — so the total
stays within the budget exactly when those uncapped contributions
leave room for it. -/
theorem c1AmendedBudgetDecomposition :
    ∀ (fs : FS) (issue : LinearIssue) (b : BugContext),
      gatherContextForBug fs issue = .ok b →
      b.estimatedTokens ≤ max (staticStep fs).2 (FILE_BUDGET - 1)
        + estimateTokens (stringifySearchResults b.searchResults)
        + estimateTokens (stringifyCommits b.recentCommits) := by
  intro fs issue b h
  have hT3 := addFiles_le_max fs (extractSignalsFromIssue issue).files (staticStep fs).2
  simp only [gatherContextForBug] at h
  cases hE : (extractSignalsFromIssue issue).errors with
  | nil =>
    rw [hE] at h
    dsimp only at h
    injection h with hb
    subst hb
    dsimp only
    have hc := commitsStep_bound fs
      (addRelevantFiles fs (staticStep fs).2 (extractSignalsFromIssue issue).files).2
    omega
  | cons e0 rest =>
    rw [hE] at h
    dsimp only at h
    by_cases hS :
        (addRelevantFiles fs (staticStep fs).2 (extractSignalsFromIssue issue).files).2
          < SEARCH_BUDGET
    · rw [if_pos hS] at h
      cases hSC : searchCode fs e0 (some srcExtensions) with
      | error e => rw [hSC] at h; exact absurd h (by simp)
      | ok rs =>
        rw [hSC] at h
        dsimp only at h
        injection h with hb
        subst hb
        dsimp only
        have hc := commitsStep_bound fs
          ((addRelevantFiles fs (staticStep fs).2 (extractSignalsFromIssue issue).files).2
            + estimateTokens (stringifySearchResults (rs.take 20)))
        omega
    · rw [if_neg hS] at h
      dsimp only at h
      injection h with hb
      subst hb
      dsimp only
      have hc := commitsStep_bound fs
        (addRelevantFiles fs (staticStep fs).2 (extractSignalsFromIssue issue).files).2
      omega

/-- C1, witness for the amended theorem at a checkout with no readable
files and an empty git log. -/
theorem c1AmendedBudgetDecompositionWitness :
    gatherContextForBug fsTiny issueEmpty = .ok tinyBundle ∧
    tinyBundle.estimatedTokens ≤ max (staticStep fsTiny).2 (FILE_BUDGET - 1)
      + estimateTokens (stringifySearchResults tinyBundle.searchResults)
      + estimateTokens (stringifyCommits tinyBundle.recentCommits) :=
  ⟨rfl, c1AmendedBudgetDecomposition fsTiny issueEmpty tinyBundle rfl⟩

/-- A failing git subprocess leaves the commit step with no records. -/
theorem commitsStep_gitfail (fs : FS) (t : Nat) (e : Str)
    (hg : fs.gitLogOut = .error e) : (commitsStep fs t).1 = [] := by
  unfold commitsStep getRecentCommits
  rw [hg]
  by_cases h : t < COMMIT_BUDGET
  · simp [h]
  · simp [h]

/-- Any successfully gathered bundle carries the static-step notes and
a commit-step record list. -/
theorem gather_ok_fields (fs : FS) (issue : LinearIssue) (b : BugContext)
    (h : gatherContextForBug fs issue = .ok b) :
    b.staticContext = (staticStep fs).1 ∧ ∃ t, b.recentCommits = (commitsStep fs t).1 := by
  simp only [gatherContextForBug] at h
  cases hE : (extractSignalsFromIssue issue).errors with
  | nil =>
    rw [hE] at h; dsimp only at h
    injection h with hb
    subst hb
    exact ⟨rfl, _, rfl⟩
  | cons e0 rest =>
    rw [hE] at h; dsimp only at h
    by_cases hS :
        (addRelevantFiles fs (staticStep fs).2 (extractSignalsFromIssue issue).files).2
          < SEARCH_BUDGET
    · rw [if_pos hS] at h
      cases hSC : searchCode fs e0 (some srcExtensions) with
      | error e => rw [hSC] at h; exact absurd h (by simp)
      | ok rs =>
        rw [hSC] at h; dsimp only at h
        injection h with hb
        subst hb
        exact ⟨rfl, _, rfl⟩
    · rw [if_neg hS] at h; dsimp only at h
      injection h with hb
      subst hb
      exact ⟨rfl, _, rfl⟩

set_option maxHeartbeats 1000000 in
/-- C6, counterexample.  With one extracted error string and a checkout
whose directory walk fails, the unguarded `listFiles` inside
`searchCode` propagates, and the whole operation raises instead of
returning a bundle. -/
theorem c6CounterexampleSearchListingRaises :
    gatherContextForBug fsNoListing issueErr =
      .error (strOf ("ENOENT: readdir failed")) := rfl

/-- C6, amended.  Sub-fetch failures degrade — unreadable static notes
become the placeholder, a failing git log yields an empty commit list,
unreadable mentioned files are skipped (see the file-loop theorem) —
and the operation returns a bundle whenever the directory listing
succeeds or no error string was extracted; but a listing failure during
a triggered search propagates (see the counterexample). -/
theorem c6AmendedDegradation :
    (∀ (fs : FS) (issue : LinearIssue) (files : List Str), fs.listing = .ok files →
       ∃ b, gatherContextForBug fs issue = .ok b)
    ∧ (∀ (fs : FS) (issue : LinearIssue), (extractSignalsFromIssue issue).errors = [] →
       ∃ b, gatherContextForBug fs issue = .ok b)
    ∧ (∀ (fs : FS) (issue : LinearIssue) (b : BugContext) (e : Str),
       gatherContextForBug fs issue = .ok b → fs.read contextMdPath = .error e →
       b.staticContext = noContextPlaceholder)
    ∧ (∀ (fs : FS) (issue : LinearIssue) (b : BugContext) (e : Str),
       gatherContextForBug fs issue = .ok b → fs.gitLogOut = .error e →
       b.recentCommits = []) := by
  refine ⟨?_, ?_, ?_, ?_⟩
  · intro fs issue files hL
    simp only [gatherContextForBug]
    cases hE : (extractSignalsFromIssue issue).errors with
    | nil => exact ⟨_, rfl⟩
    | cons e0 rest =>
      dsimp only
      by_cases hS :
          (addRelevantFiles fs (staticStep fs).2 (extractSignalsFromIssue issue).files).2
            < SEARCH_BUDGET
      · have hsc : searchCode fs e0 (some srcExtensions) =
            .ok (searchFiles fs e0 (some srcExtensions) files) := by
          rw [searchCode, hL]
        rw [if_pos hS, hsc]
        exact ⟨_, rfl⟩
      · rw [if_neg hS]
        exact ⟨_, rfl⟩
  · intro fs issue hE
    simp only [gatherContextForBug]
    rw [hE]
    dsimp only
    exact ⟨_, rfl⟩
  · intro fs issue b e h hr
    obtain ⟨hs, -⟩ := gather_ok_fields fs issue b h
    have hr2 : readFile fs contextMdPath = .error e := hr
    rw [hs, staticStep, hr2]
  · intro fs issue b e h hg
    obtain ⟨-, t, hc⟩ := gather_ok_fields fs issue b h
    rw [hc]
    exact commitsStep_gitfail fs t e hg

/-- C6, witness for the amended theorem. -/
theorem c6AmendedDegradationWitness :
    (fsTiny.listing = .ok [] ∧ (∃ b, gatherContextForBug fsTiny issueEmpty = .ok b)) ∧
    ((extractSignalsFromIssue issueEmpty).errors = [] ∧
     ∃ b, gatherContextForBug fsNoGit issueEmpty = .ok b) ∧
    (gatherContextForBug fsTiny issueEmpty = .ok tinyBundle ∧
     fsTiny.read contextMdPath = .error [] ∧
     tinyBundle.staticContext = noContextPlaceholder) ∧
    (gatherContextForBug fsNoGit issueEmpty = .ok tinyBundle ∧
     fsNoGit.gitLogOut = .error [] ∧ tinyBundle.recentCommits = []) :=
  ⟨⟨rfl, c6AmendedDegradation.1 fsTiny issueEmpty [] rfl⟩,
   ⟨rfl, c6AmendedDegradation.2.1 fsNoGit issueEmpty rfl⟩,
   ⟨rfl, rfl, c6AmendedDegradation.2.2.1 fsTiny issueEmpty tinyBundle [] rfl rfl⟩,
   ⟨rfl, rfl, c6AmendedDegradation.2.2.2 fsNoGit issueEmpty tinyBundle [] rfl rfl⟩⟩

/-- A line hit is kept exactly for the lines containing the pattern as
a case-sensitive substring, carrying the 1-based line number and the
trimmed line. -/
theorem searchLines_mem (f pat content : Str) (r : SearchResult) :
    r ∈ searchLines f pat content ↔
      ∃ idx ln, (splitOnChar '\n' content).get? idx = some ln ∧
        strIncludes ln pat = true ∧ r = ⟨f, idx + 1, jsTrim ln⟩ := by
  unfold searchLines
  rw [List.mem_filterMap]
  constructor
  · rintro ⟨⟨idx, ln⟩, hmem, hf⟩
    rw [List.mem_enum_iff_get?] at hmem
    by_cases hq : strIncludes ln pat
    · refine ⟨idx, ln, hmem, hq, ?_⟩
      simp only [hq, if_true] at hf
      exact (Option.some.injEq _ _ ▸ hf).symm
    · simp only [hq] at hf
      simp at hf
  · rintro ⟨idx, ln, hget, hinc, rfl⟩
    refine ⟨(idx, ln), List.mem_enum_iff_get?.mpr hget, ?_⟩
    simp [hinc]

/-- Membership in the search over a file list: a hit comes exactly
from a listed file passing the extension filter whose readable content
has a line containing the pattern. -/
theorem searchFiles_mem (fs : FS) (pat : Str) (exts : List Str) :
    ∀ (files : List Str) (r : SearchResult),
      r ∈ searchFiles fs pat (some exts) files ↔
        ∃ f, f ∈ files ∧ (exts.any (fun e => strEnds f e)) = true ∧
          ∃ content, fs.read f = .ok content ∧
            ∃ idx ln, (splitOnChar '\n' content).get? idx = some ln ∧
              strIncludes ln pat = true ∧ r = ⟨f, idx + 1, jsTrim ln⟩ := by
  intro files
  induction files with
  | nil => intro r; simp [searchFiles]
  | cons f rest ih =>
    intro r
    by_cases hskip : extSkip (some exts) f
    · have hany : (exts.any (fun e => strEnds f e)) = false := by
        unfold extSkip at hskip
        simpa using hskip
      rw [searchFiles, if_pos hskip, ih r]
      constructor
      · rintro ⟨g, hg, hrest⟩
        exact ⟨g, List.mem_cons_of_mem f hg, hrest⟩
      · rintro ⟨g, hg, hext, hrest⟩
        rcases List.mem_cons.mp hg with heq | hmem
        · subst heq; rw [hany] at hext; exact absurd hext (by simp)
        · exact ⟨g, hmem, hext, hrest⟩
    · have hany : (exts.any (fun e => strEnds f e)) = true := by
        unfold extSkip at hskip
        simpa using hskip
      rw [searchFiles, if_neg hskip]
      cases hread : readFile fs f with
      | error e =>
        have hread2 : fs.read f = Except.error e := hread
        rw [ih r]
        constructor
        · rintro ⟨g, hg, hrest⟩
          exact ⟨g, List.mem_cons_of_mem f hg, hrest⟩
        · rintro ⟨g, hg, hext, content, hc, hrest⟩
          rcases List.mem_cons.mp hg with heq | hmem
          · subst heq
            rw [hread2] at hc
            exact absurd hc (by simp)
          · exact ⟨g, hmem, hext, content, hc, hrest⟩
      | ok content =>
        have hread2 : fs.read f = Except.ok content := hread
        rw [List.mem_append, searchLines_mem, ih r]
        constructor
        · rintro (⟨idx, ln, hget, hinc, hr⟩ | ⟨g, hg, hrest⟩)
          · exact ⟨f, List.mem_cons_self f rest, hany, content, hread2, idx, ln, hget, hinc, hr⟩
          · exact ⟨g, List.mem_cons_of_mem f hg, hrest⟩
        · rintro ⟨g, hg, hext, content2, hc, hrest⟩
          rcases List.mem_cons.mp hg with heq | hmem
          · subst heq
            rw [hread2] at hc
            injection hc with hc2
            subst hc2
            exact Or.inl hrest
          · exact Or.inr ⟨g, hmem, hext, content2, hc, hrest⟩

/-- C7.  The search step's results are empty when no error string was
extracted or the running total is at or above 80% of budget; when both
gates pass, the bundle keeps exactly the first 20 hits of
`searchCode` run on the first extracted error string over the fixed
source-extension list; every gathered bundle keeps at most 20 hits;
and search hits are exactly the case-sensitive substring matches over
the listed files passing the extension filter. -/
theorem c7SearchStepCharacterisation :
    (∀ (fs : FS) (issue : LinearIssue) (b : BugContext),
       gatherContextForBug fs issue = .ok b →
       (extractSignalsFromIssue issue).errors = [] → b.searchResults = [])
    ∧ (∀ (fs : FS) (issue : LinearIssue) (b : BugContext),
       gatherContextForBug fs issue = .ok b →
       SEARCH_BUDGET ≤ (addRelevantFiles fs (staticStep fs).2
           (extractSignalsFromIssue issue).files).2 → b.searchResults = [])
    ∧ (∀ (fs : FS) (issue : LinearIssue) (b : BugContext) (e0 : Str)
         (rest : List Str) (rs : List SearchResult),
       gatherContextForBug fs issue = .ok b →
       (extractSignalsFromIssue issue).errors = e0 :: rest →
       (addRelevantFiles fs (staticStep fs).2 (extractSignalsFromIssue issue).files).2
         < SEARCH_BUDGET →
       searchCode fs e0 (some srcExtensions) = .ok rs →
       b.searchResults = rs.take 20)
    ∧ (∀ (fs : FS) (issue : LinearIssue) (b : BugContext),
       gatherContextForBug fs issue = .ok b → b.searchResults.length ≤ 20)
    ∧ (∀ (fs : FS) (pat : Str) (exts : List Str) (files : List Str) (r : SearchResult),
       r ∈ searchFiles fs pat (some exts) files ↔
         ∃ f, f ∈ files ∧ (exts.any (fun e => strEnds f e)) = true ∧
           ∃ content, fs.read f = .ok content ∧
             ∃ idx ln, (splitOnChar '\n' content).get? idx = some ln ∧
               strIncludes ln pat = true ∧ r = ⟨f, idx + 1, jsTrim ln⟩) := by
  refine ⟨?_, ?_, ?_, ?_, fun fs pat exts files r => searchFiles_mem fs pat exts files r⟩
  · intro fs issue b h hE
    simp only [gatherContextForBug] at h
    rw [hE] at h
    dsimp only at h
    injection h with hb
    subst hb
    rfl
  · intro fs issue b h hS
    simp only [gatherContextForBug] at h
    cases hE : (extractSignalsFromIssue issue).errors with
    | nil =>
      rw [hE] at h; dsimp only at h
      injection h with hb; subst hb; rfl
    | cons e0 rest =>
      rw [hE] at h; dsimp only at h
      rw [if_neg (Nat.not_lt.mpr hS)] at h
      dsimp only at h
      injection h with hb; subst hb; rfl
  · intro fs issue b e0 rest rs h hE hS hSC
    simp only [gatherContextForBug] at h
    rw [hE] at h
    dsimp only at h
    rw [if_pos hS, hSC] at h
    dsimp only at h
    injection h with hb
    subst hb
    rfl
  · intro fs issue b h
    simp only [gatherContextForBug] at h
    cases hE : (extractSignalsFromIssue issue).errors with
    | nil =>
      rw [hE] at h; dsimp only at h
      injection h with hb; subst hb
      simp
    | cons e0 rest =>
      rw [hE] at h; dsimp only at h
      by_cases hS :
          (addRelevantFiles fs (staticStep fs).2 (extractSignalsFromIssue issue).files).2
            < SEARCH_BUDGET
      · rw [if_pos hS] at h
        cases hSC : searchCode fs e0 (some srcExtensions) with
        | error e => rw [hSC] at h; exact absurd h (by simp)
        | ok rs =>
          rw [hSC] at h; dsimp only at h
          injection h with hb; subst hb
          simp
      · rw [if_neg hS] at h; dsimp only at h
        injection h with hb; subst hb
        simp

set_option maxHeartbeats 4000000 in
/-- C7, witness at a one-file checkout and the `Error`-titled issue. -/
theorem c7SearchStepCharacterisationWitness :
    ((extractSignalsFromIssue issueErr).errors = [strOf ("Error")] ∧
     (addRelevantFiles c7fs (staticStep c7fs).2
        (extractSignalsFromIssue issueErr).files).2 < SEARCH_BUDGET ∧
     searchCode c7fs (strOf ("Error")) (some srcExtensions) =
       .ok [⟨strOf ("a.ts"), 1, strOf ("x Error y")⟩] ∧
     gatherContextForBug c7fs issueErr = .ok c7bundle ∧
     c7bundle.searchResults =
       ([⟨strOf ("a.ts"), 1, strOf ("x Error y")⟩] : List SearchResult).take 20) ∧
    c7bundle.searchResults.length ≤ 20 :=
  ⟨⟨rfl, by decide, rfl, rfl,
    c7SearchStepCharacterisation.2.2.1 c7fs issueErr c7bundle (strOf ("Error")) []
      [⟨strOf ("a.ts"), 1, strOf ("x Error y")⟩] rfl rfl (by decide) rfl⟩,
   c7SearchStepCharacterisation.2.2.2.1 c7fs issueErr c7bundle rfl⟩

/-- The signature check is a stub: it returns `true` for every
environment, body and signature. -/
theorem verifyAlwaysTrue :
    ∀ (env : Env) (body : Option LinearPayload) (sig : Option Str),
      verifyLinearSignature env body sig = true := by
  intro env body sig
  unfold verifyLinearSignature
  split <;> rfl

/-- C3.  A repository URL in the description wins over any team
mapping and default environment value; and when resolution yields no
repository the handler responds 400 without invoking the pipeline. -/
theorem c3RepoResolutionPrecedence :
    (∀ (env : Env) (payload : LinearPayload) (o r : Str),
       githubUrlExtract (payload.data.description.getD []) = some (o, r) →
       extractRepoInfo env payload = .ok (some ⟨o, some (stripDotGit r)⟩))
    ∧ (∀ (env : Env) (pipeline : RepoInfo → Except Str Bool) (req : WebhookReq)
         (payload : LinearPayload),
       req.method = strOf ("POST") →
       parseLinearWebhook req.body = .ok payload →
       shouldProcessIssue payload = true →
       extractRepoInfo env payload = .ok none →
       handler env pipeline req = ⟨400, false⟩) := by
  constructor
  · intro env payload o r h
    simp only [extractRepoInfo]
    rw [h]
  · intro env pipeline req payload hm hp hs he
    unfold handler
    rw [hm]
    rw [if_neg (by simp)]
    rw [verifyAlwaysTrue]
    simp only [Bool.not_true, Bool.false_eq_true, if_false, hp, hs, he]

set_option maxHeartbeats 4000000 in
/-- C3, witness: an environment with URL, matching team mapping and
default simultaneously configured resolves to the URL's repository;
and with nothing configured the handler responds 400. -/
theorem c3RepoResolutionPrecedenceWitness :
    (githubUrlExtract (payloadUrl.data.description.getD []) =
       some (strOf ("a"), strOf ("b.git")) ∧
     optStrTruthy envAllThree.repoMapping = true ∧
     repoFromMapping (teamKeyOf payloadUrl.data.team)
         (splitOnChar ',' (envAllThree.repoMapping.getD [])) =
       .ok (some ⟨strOf ("o2"), some (strOf ("m2"))⟩) ∧
     envAllThree.githubRepository = some (strOf ("o3/m3")) ∧
     extractRepoInfo envAllThree payloadUrl =
       .ok (some ⟨strOf ("a"), some (strOf ("b"))⟩)) ∧
    (parseLinearWebhook (mkReq payloadNoRepo).body = .ok payloadNoRepo ∧
     shouldProcessIssue payloadNoRepo = true ∧
     extractRepoInfo envNone payloadNoRepo = .ok none ∧
     handler envNone pipelineOk (mkReq payloadNoRepo) = ⟨400, false⟩) :=
  ⟨⟨rfl, rfl, rfl, rfl,
    c3RepoResolutionPrecedence.1 envAllThree payloadUrl (strOf ("a")) (strOf ("b.git")) rfl⟩,
   ⟨rfl, rfl, rfl,
    c3RepoResolutionPrecedence.2 envNone pipelineOk (mkReq payloadNoRepo) payloadNoRepo
      rfl rfl rfl rfl⟩⟩

/-- C5 (code bug).  The claim demands a 401 rejection for an invalid
or absent signature when a secret is configured, but the verification
is stubbed (`TODO` in the source): it accepts every request, and a POST
carrying no signature under a configured secret reaches the pipeline
and gets a 200. -/
theorem c5SignatureStubAccepts :
    (∀ (env : Env) (body : Option LinearPayload) (sig : Option Str),
       verifyLinearSignature env body sig = true)
    ∧ optStrTruthy envSecretOnly.linearWebhookSecret = true
    ∧ (mkReq payloadNoRepo).linearSignature = none
    ∧ handler envSecretOnly pipelineOk (mkReq payloadNoRepo) = ⟨200, true⟩ :=
  ⟨verifyAlwaysTrue, rfl, rfl, rfl⟩

/-- C9.  A payload passes the trigger filter exactly when its action
is `create` or `update` and some label's lower-cased name is `ai-fix`
(case-insensitive matching). -/
theorem c9TriggerLabelIff :
    ∀ (p : LinearPayload),
      shouldProcessIssue p = true ↔
        ((p.action = strOf ("create") ∨ p.action = strOf ("update")) ∧
         ∃ l, l ∈ p.data.labels.getD [] ∧ jsLower l.name = strOf ("ai-fix")) := by
  intro p
  unfold shouldProcessIssue
  by_cases ha : p.action ≠ strOf ("update") ∧ p.action ≠ strOf ("create")
  · rw [if_pos ha]
    constructor
    · intro h; exact absurd h (by simp)
    · rintro ⟨hc | hu, -⟩
      · exact absurd hc ha.2
      · exact absurd hu ha.1
  · rw [if_neg ha]
    rw [List.any_eq_true]
    push_neg at ha
    constructor
    · rintro ⟨l, hl, hbeq⟩
      refine ⟨?_, l, hl, by simpa using hbeq⟩
      by_cases hu : p.action = strOf ("update")
      · exact Or.inr hu
      · exact Or.inl (ha hu)
    · rintro ⟨-, l, hl, hlow⟩
      exact ⟨l, hl, by simpa using hlow⟩

/-- No parse-error diagnostic equals the could-not-fix error. -/
theorem jsonErrMsg_ne : ∀ (e : JsonErr), jsonErrMsg e ≠ couldNotFixMsg := by
  intro e
  cases e <;> decide

/-- C4.  An extracted object that parses and validates but carries an
empty `changes` array fails with the distinct could-not-fix error and
keeps the parsed reasoning; a reply with no JSON slice, an unparsable
slice, or a structurally invalid object fails with a different error
and the first 500 characters of the raw reply as diagnostic
reasoning. -/
theorem c4ParserFailureModes :
    (∀ (text slice : Str) (parsed : Json),
       jsonSliceMatch text = some slice → jsonParse slice = .ok parsed →
       jsTruthy (parsed.getProp (strOf ("reasoning"))) = true →
       jsTruthy (parsed.getProp (strOf ("description"))) = true →
       parsed.getProp (strOf ("changes")) = some (.arr []) →
       parseClaudeResponse text =
         { success := false, changes := [],
           description := (parsed.getProp (strOf ("description"))).getD .null,
           reasoning := (parsed.getProp (strOf ("reasoning"))).getD .null,
           error := some couldNotFixMsg })
    ∧ (∀ (text : Str), jsonSliceMatch text = none →
       parseClaudeResponse text = parseFailureResult text noJsonMsg)
    ∧ (∀ (text slice : Str) (e : JsonErr),
       jsonSliceMatch text = some slice → jsonParse slice = .error e →
       parseClaudeResponse text = parseFailureResult text (jsonErrMsg e))
    ∧ (∀ (text slice : Str) (parsed : Json),
       jsonSliceMatch text = some slice → jsonParse slice = .ok parsed →
       (jsTruthy (parsed.getProp (strOf ("reasoning"))) = false ∨
        jsTruthy (parsed.getProp (strOf ("description"))) = false ∨
        isJsonArray (parsed.getProp (strOf ("changes"))) = false) →
       parseClaudeResponse text = parseFailureResult text invalidStructureMsg)
    ∧ (∀ (e : JsonErr), jsonErrMsg e ≠ couldNotFixMsg)
    ∧ noJsonMsg ≠ couldNotFixMsg
    ∧ invalidStructureMsg ≠ couldNotFixMsg
    ∧ (∀ (text msg : Str), (parseFailureResult text msg).success = false ∧
        (parseFailureResult text msg).reasoning = .str (text.take 500)) := by
  refine ⟨?_, ?_, ?_, ?_, jsonErrMsg_ne, by decide, by decide, fun text msg => ⟨rfl, rfl⟩⟩
  · intro text slice parsed h1 h2 h3 h4 h5
    simp only [parseClaudeResponse, h1, h2, h3, h4, h5]
    rfl
  · intro text h1
    simp only [parseClaudeResponse, h1]
  · intro text slice e h1 h2
    simp only [parseClaudeResponse, h1, h2]
  · intro text slice parsed h1 h2 h3
    simp only [parseClaudeResponse, h1, h2]
    rcases h3 with h | h | h <;> rw [h] <;> simp

/-- C10.  The parser never validates individual change entries: any
truthy reasoning and description with a non-empty `changes` array
yields success with the raw entries, whatever their shape. -/
theorem c10NoPerEntryValidation :
    ∀ (text slice : Str) (parsed : Json) (l : List Json),
      jsonSliceMatch text = some slice → jsonParse slice = .ok parsed →
      jsTruthy (parsed.getProp (strOf ("reasoning"))) = true →
      jsTruthy (parsed.getProp (strOf ("description"))) = true →
      parsed.getProp (strOf ("changes")) = some (.arr l) →
      l ≠ [] →
      (parseClaudeResponse text).success = true ∧
      (parseClaudeResponse text).changes = l := by
  intro text slice parsed l h1 h2 h3 h4 h5 hne
  simp only [parseClaudeResponse, h1, h2, h3, h4, h5]
  have hempty : (jsonArrElems (some (.arr l))).isEmpty = false := by
    cases l with
    | nil => exact absurd rfl hne
    | cons a t => rfl
  simp only [hempty]
  have harr : isJsonArray (some (Json.arr l)) = true := rfl
  rw [harr]
  simp
  rfl

/-- C4, witness at the four concrete replies. -/
theorem c4ParserFailureModesWitness :
    (jsonSliceMatch replyEmptyChanges = some replyEmptyChanges ∧
     jsonParse replyEmptyChanges = .ok parsedEmptyChanges ∧
     jsTruthy (parsedEmptyChanges.getProp (strOf ("reasoning"))) = true ∧
     parsedEmptyChanges.getProp (strOf ("changes")) = some (.arr []) ∧
     parseClaudeResponse replyEmptyChanges =
       { success := false, changes := [],
         description := (parsedEmptyChanges.getProp (strOf ("description"))).getD .null,
         reasoning := (parsedEmptyChanges.getProp (strOf ("reasoning"))).getD .null,
         error := some couldNotFixMsg }) ∧
    (jsonSliceMatch replyNoJson = none ∧
     parseClaudeResponse replyNoJson = parseFailureResult replyNoJson noJsonMsg) ∧
    (jsonSliceMatch replyBadJson = some replyBadJson ∧
     jsonParse replyBadJson = .error .unexpectedToken ∧
     parseClaudeResponse replyBadJson =
       parseFailureResult replyBadJson (jsonErrMsg .unexpectedToken)) ∧
    (jsonParse replyBadStructure = .ok parsedBadStructure ∧
     jsTruthy (parsedBadStructure.getProp (strOf ("reasoning"))) = false ∧
     parseClaudeResponse replyBadStructure =
       parseFailureResult replyBadStructure invalidStructureMsg) :=
  ⟨⟨rfl, rfl, rfl, rfl,
    c4ParserFailureModes.1 replyEmptyChanges replyEmptyChanges parsedEmptyChanges
      rfl rfl rfl rfl rfl⟩,
   ⟨rfl, c4ParserFailureModes.2.1 replyNoJson rfl⟩,
   ⟨rfl, rfl,
    c4ParserFailureModes.2.2.1 replyBadJson replyBadJson .unexpectedToken rfl rfl⟩,
   ⟨rfl, rfl,
    c4ParserFailureModes.2.2.2.1 replyBadStructure replyBadStructure parsedBadStructure
      rfl rfl (Or.inl rfl)⟩⟩

/-- C10, witness at a reply whose change entries are a number and a
pathless object. -/
theorem c10NoPerEntryValidationWitness :
    (jsonSliceMatch replyJunkChanges = some replyJunkChanges ∧
     jsonParse replyJunkChanges = .ok parsedJunkChanges ∧
     parsedJunkChanges.getProp (strOf ("changes")) = some (.arr junkChangesList) ∧
     junkChangesList ≠ []) ∧
    (parseClaudeResponse replyJunkChanges).success = true ∧
    (parseClaudeResponse replyJunkChanges).changes = junkChangesList :=
  ⟨⟨rfl, rfl, rfl, fun h => List.noConfusion h⟩,
   c10NoPerEntryValidation replyJunkChanges replyJunkChanges parsedJunkChanges
     junkChangesList rfl rfl rfl rfl rfl (fun h => List.noConfusion h)⟩
